import Mathlib

/-!
Verification of the light-cpp-common runtime library.

Shallow embedding of the C++ headers under include/lightc/ :
LockedQueue.h, EventDriven.h, Signal.h, ProcessBase.h, IniFile.h.
Mutable state becomes explicit state passing; std exceptions become
explicit outcome values; std::unordered_map becomes an association list.
-/

set_option autoImplicit false

namespace LCC

/-! ## LockedQueue (LockedQueue.h)

State of LockedQueue: the FIFO `m_que` and the flag `m_bShutdown`.
The mutex and condition variable serialize the operations, so each
member function is modelled as one atomic step on this state. -/

structure LockedQueue (T : Type) where
  que : List T
  bShutdown : Bool
deriving Repr, DecidableEq

/-- `Enq` (LockedQueue.h lines 69-76): under the lock, if shut down
return false without touching state; else push, notify one, return true. -/
def LockedQueue.Enq {T : Type} (x : T) (s : LockedQueue T) : Bool × LockedQueue T :=
  if s.bShutdown then (false, s)
  else (true, ⟨s.que ++ [x], s.bShutdown⟩)

/-- Result of one `Deq` call. `ubFront` marks the path where the code
would call `front()` on an empty `std::queue` (undefined behavior). -/
inductive DeqResult (T : Type) where
  | fail : DeqResult T
  | ok : T → DeqResult T
  | ubFront : DeqResult T
deriving Repr, DecidableEq

/-- `Deq` (LockedQueue.h lines 87-113). `bReady` is the value the
condition-variable wait left in `bReady`: `true` unconditionally on the
infinite-wait path, and the predicate value returned by `wait_for` on
the timed path. In both cases the wait contract gives
`bReady = true -> (que nonempty or shutdown)`; that fact is a hypothesis
of the theorems, not baked into the definition. After the wait the code
checks `!bReady || (m_bShutdown && m_que.empty())` and returns false,
else reads `front()` and pops. -/
def LockedQueue.Deq {T : Type} (bReady : Bool) (s : LockedQueue T) :
    DeqResult T × LockedQueue T :=
  if !bReady || (s.bShutdown && s.que.isEmpty) then (.fail, s)
  else
    match s.que with
    | [] => (.ubFront, s)
    | x :: rest => (.ok x, ⟨rest, s.bShutdown⟩)

/-- `Shutdown` (LockedQueue.h lines 137-142): set the flag, wake all
waiters; the queued items are kept. -/
def LockedQueue.ShutdownQ {T : Type} (s : LockedQueue T) : LockedQueue T :=
  ⟨s.que, true⟩

/-- A sequence of `Enq` calls, returning the list of results and the
final state. -/
def LockedQueue.enqAll {T : Type} (xs : List T) (s : LockedQueue T) :
    List Bool × LockedQueue T :=
  match xs with
  | [] => ([], s)
  | x :: rest =>
    let r := LockedQueue.Enq x s
    let r2 := LockedQueue.enqAll rest r.2
    (r.1 :: r2.1, r2.2)

/-- `n` successive `Deq` calls with the wait satisfied each time (after
`Shutdown` the wait predicate is immediately true, so every wait returns
with `bReady = true`). -/
def LockedQueue.deqN {T : Type} (n : Nat) (s : LockedQueue T) :
    List (DeqResult T) × LockedQueue T :=
  match n with
  | 0 => ([], s)
  | n + 1 =>
    let r := LockedQueue.Deq true s
    let r2 := LockedQueue.deqN n r.2
    (r.1 :: r2.1, r2.2)

theorem LockedQueue.enqAll_not_shutdown {T : Type} (xs : List T) (q : List T) :
    LockedQueue.enqAll xs (⟨q, false⟩ : LockedQueue T)
      = (List.replicate xs.length true, ⟨q ++ xs, false⟩) := by
  induction xs generalizing q with
  | nil => simp [LockedQueue.enqAll]
  | cons x rest ih =>
    simp [LockedQueue.enqAll, LockedQueue.Enq, ih, List.replicate]

theorem LockedQueue.deqN_shutdown {T : Type} (n : Nat) (xs : List T) :
    LockedQueue.deqN n (⟨xs, true⟩ : LockedQueue T)
      = ((xs.map DeqResult.ok ++ List.replicate (n - xs.length) DeqResult.fail).take n,
         ⟨xs.drop n, true⟩) := by
  induction n generalizing xs with
  | zero => simp [LockedQueue.deqN]
  | succ n ih =>
    cases xs with
    | nil =>
      simp [LockedQueue.deqN, LockedQueue.Deq, ih, List.replicate]
    | cons x rest =>
      simp [LockedQueue.deqN, LockedQueue.Deq, ih]

/-- Claim C3: items enqueued into a fresh queue before `Shutdown` are all
accepted (every `Enq` returns true), and a subsequent run of `Deq` calls
returns exactly those items, in FIFO order, with success; once the queue
is drained (and shut down) every further `Deq` returns failure. Stated
for an arbitrary number `n` of `Deq` calls: the first `xs.length` calls
yield the items in order, all later calls yield `fail`. -/
theorem C3_fifo_drain_after_shutdown (xs : List Nat) (n : Nat) :
    (LockedQueue.enqAll xs (⟨[], false⟩ : LockedQueue Nat)).1
        = List.replicate xs.length true ∧
    (LockedQueue.deqN n
        (LockedQueue.ShutdownQ (LockedQueue.enqAll xs (⟨[], false⟩ : LockedQueue Nat)).2)).1
      = (xs.map DeqResult.ok ++ List.replicate (n - xs.length) DeqResult.fail).take n := by
  rw [LockedQueue.enqAll_not_shutdown]
  constructor
  · rfl
  · simp [LockedQueue.ShutdownQ, LockedQueue.deqN_shutdown]

/-- Claim C4: once the shutdown flag is set, `Enq` returns false and the
state (the stored sequence and the flag) is unchanged. -/
theorem C4_enq_after_shutdown {T : Type} (s : LockedQueue T) (x : T)
    (h : s.bShutdown = true) :
    LockedQueue.Enq x s = (false, s) := by
  simp [LockedQueue.Enq, h]

theorem C4_enq_after_shutdown_witness :
    LockedQueue.Enq 5 (⟨[1, 2], true⟩ : LockedQueue Nat)
      = (false, ⟨[1, 2], true⟩) :=
  C4_enq_after_shutdown ⟨[1, 2], true⟩ 5 rfl

/-- Claim C10: under the condition-variable wait contract
(`bReady = true` implies the queue was nonempty or shut down), `Deq`
never reaches the `front()`-of-empty-queue path; when it succeeds it
returns exactly the old head and leaves exactly the old tail; when it
fails it leaves the state unchanged. -/
theorem C10_deq_front_safety {T : Type} (s : LockedQueue T) (bReady : Bool)
    (hWait : bReady = true → s.que ≠ [] ∨ s.bShutdown = true) :
    (LockedQueue.Deq bReady s).1 ≠ DeqResult.ubFront ∧
    (∀ x : T, (LockedQueue.Deq bReady s).1 = .ok x →
        s.que.head? = some x ∧
        (LockedQueue.Deq bReady s).2 = ⟨s.que.tail, s.bShutdown⟩) ∧
    ((LockedQueue.Deq bReady s).1 = .fail → (LockedQueue.Deq bReady s).2 = s) := by
  cases bReady with
  | false => simp [LockedQueue.Deq]
  | true =>
    rcases hq : s.que with _ | ⟨x, rest⟩
    · rcases hWait rfl with h | h
      · exact absurd hq h
      · simp [LockedQueue.Deq, hq, h]
    · cases hsd : s.bShutdown <;> simp [LockedQueue.Deq, hq, hsd]

theorem C10_deq_front_safety_witness :
    (LockedQueue.Deq true (⟨[3, 4], false⟩ : LockedQueue Nat)).1 ≠ DeqResult.ubFront ∧
    (∀ x : Nat, (LockedQueue.Deq true (⟨[3, 4], false⟩ : LockedQueue Nat)).1 = .ok x →
        (⟨[3, 4], false⟩ : LockedQueue Nat).que.head? = some x ∧
        (LockedQueue.Deq true (⟨[3, 4], false⟩ : LockedQueue Nat)).2
          = ⟨(⟨[3, 4], false⟩ : LockedQueue Nat).que.tail,
             (⟨[3, 4], false⟩ : LockedQueue Nat).bShutdown⟩) ∧
    ((LockedQueue.Deq true (⟨[3, 4], false⟩ : LockedQueue Nat)).1 = .fail →
        (LockedQueue.Deq true (⟨[3, 4], false⟩ : LockedQueue Nat)).2
          = (⟨[3, 4], false⟩ : LockedQueue Nat)) :=
  C10_deq_front_safety ⟨[3, 4], false⟩ true (fun _ => Or.inl (by simp))

/-! ## EventDriven (EventDriven.h)

The `Run` loop (lines 45-58): while `fnContinue()` holds, `Deq` with the
poll timeout; on success invoke `vOnEvent` inside try/catch, where a
`std::exception` is caught and routed to `LogOnEventException(ex)` and
anything else to `LogOnEventException()`; then the loop continues.
The abstract `vOnEvent` is modelled by its observable outcome. -/

/-- Outcome of one `vOnEvent` invocation: normal return, a thrown
`std::exception` carrying a `what()` message, or a thrown value of any
other type. -/
inductive HandlerResult where
  | ok : HandlerResult
  | exnTyped : String → HandlerResult
  | exnOther : HandlerResult
deriving Repr, DecidableEq

/-- One record of the failure-logging hook being called:
`LogOnEventException(ex)` with the message, or `LogOnEventException()`. -/
inductive LogEntry where
  | typed : String → LogEntry
  | unknown : LogEntry
deriving Repr, DecidableEq

/-- The hook call the catch blocks make for a given handler outcome. -/
def logOfResult (r : HandlerResult) : List LogEntry :=
  match r with
  | .ok => []
  | .exnTyped m => [.typed m]
  | .exnOther => [.unknown]

/-- `Run` (EventDriven.h lines 45-58). `conts` lists the successive
values read from `fnContinue()` (it reads state mutated by other
threads, so it is an input schedule); the model follows one value per
iteration and an exhausted schedule simply cuts the trace. With no
concurrent producer between the wait and the pop, the wait outcome is
determined by the queue state: `bReady` is the wait predicate
`!m_que.empty() || m_bShutdown`. Returns the trace of (event, outcome)
pairs, the hook-call log, and the final queue. -/
def EventDriven.Run {T : Type} (handler : T → HandlerResult) (conts : List Bool)
    (q : LockedQueue T) : List (T × HandlerResult) × List LogEntry × LockedQueue T :=
  match conts with
  | [] => ([], [], q)
  | c :: cs =>
    if c then
      let bReady := !q.que.isEmpty || q.bShutdown
      match LockedQueue.Deq bReady q with
      | (.ok x, q1) =>
        let res := handler x
        let rest := EventDriven.Run handler cs q1
        ((x, res) :: rest.1, logOfResult res ++ rest.2.1, rest.2.2)
      | (_, q1) => EventDriven.Run handler cs q1
    else ([], [], q)

/-- Claim C5: a failure raised by the event callback never changes the
course of the loop. The dispatched events and the final queue are
exactly those of the same run with a never-failing callback (so a
failure neither terminates the loop nor escapes `Run`), every outcome in
the trace is the one the callback produced (it was caught at the loop
boundary), and the hook-call log contains exactly one entry per failure,
in order (each failure is routed to the failure-logging hook). -/
theorem C5_callback_failures_contained {T : Type} (handler : T → HandlerResult)
    (conts : List Bool) (q : LockedQueue T) :
    (EventDriven.Run handler conts q).1
        = (EventDriven.Run (fun _ => .ok) conts q).1.map (fun p => (p.1, handler p.1)) ∧
    (EventDriven.Run handler conts q).2.2
        = (EventDriven.Run (fun _ => .ok) conts q).2.2 ∧
    (EventDriven.Run handler conts q).2.1
        = ((EventDriven.Run handler conts q).1.map Prod.snd).flatMap logOfResult := by
  induction conts generalizing q with
  | nil => simp [EventDriven.Run]
  | cons c cs ih =>
    cases c with
    | false => simp [EventDriven.Run]
    | true =>
      rcases hd : LockedQueue.Deq (!q.que.isEmpty || q.bShutdown) q with ⟨r, q1⟩
      cases r with
      | ok x =>
        have h1 := (ih q1).1
        have h2 := (ih q1).2.1
        have h3 := (ih q1).2.2
        simp [EventDriven.Run, hd, h1, h2, h3]
      | fail =>
        have h1 := (ih q1).1
        have h2 := (ih q1).2.1
        have h3 := (ih q1).2.2
        simp [EventDriven.Run, hd, h1, h2, h3]
      | ubFront =>
        have h1 := (ih q1).1
        have h2 := (ih q1).2.1
        have h3 := (ih q1).2.2
        simp [EventDriven.Run, hd, h1, h2, h3]

/-! ## Signal (Signal.h)

Process-wide state: the pending-signal slot `g_snSignal` and the in-use
flag `g_bWaitInUse`. `std::signal` installation is OS state with no
bearing on these claims and is not modelled. -/

structure SignalState where
  g_snSignal : Int
  g_bWaitInUse : Bool
deriving Repr, DecidableEq

/-- The wrapping conversion `static_cast<int>` applied to an `int64_t`
value: reduce modulo 2 ^ 32 into the range of a 32-bit signed int. -/
def toInt32 (n : Int) : Int := (n + 2 ^ 31) % 2 ^ 32 - 2 ^ 31

/-- `Raise` (Signal.h lines 54-58): `if (snSig == 0) return;` then store
`static_cast<int>(snSig)` into the pending slot (the slot is an
`std::atomic<int>`, so the stored value is the wrapped 32-bit
conversion of the 64-bit argument). -/
def Signal.Raise (snSig : Int) (s : SignalState) : SignalState :=
  if snSig = 0 then s else ⟨toInt32 snSig, s.g_bWaitInUse⟩

/-- The poll loop of `Wait` (Signal.h lines 81-89). Each iteration
exchanges the slot with 0 and returns the old value if non-zero, else
sleeps one interval. `raises` schedules the value (0 for none) raised
during each sleep; when the schedule runs out the loop is still polling.
Returns (result if returned, slot value at that point). -/
def Signal.waitLoop (raises : List Int) (slot : Int) : Option Int × Int :=
  if slot ≠ 0 then (some slot, 0)
  else
    match raises with
    | [] => (none, 0)
    | r :: rest => Signal.waitLoop rest (if r = 0 then 0 else r)

/-- Outcome of a `Wait` call: the thrown `std::logic_error`, a normal
return carrying the signal number, or still blocked polling. -/
inductive WaitOutcome where
  | logicError : WaitOutcome
  | returned : Int → WaitOutcome
  | blocked : WaitOutcome
deriving Repr, DecidableEq

/-- `Wait` (Signal.h lines 70-91): compare-exchange the in-use flag
(false to true); on failure throw `std::logic_error` leaving all state
unchanged. Then poll; on a non-zero exchange result, store false into
the in-use flag and return the value. -/
def Signal.Wait (raises : List Int) (s : SignalState) : WaitOutcome × SignalState :=
  if s.g_bWaitInUse then (.logicError, s)
  else
    match Signal.waitLoop raises s.g_snSignal with
    | (some v, slot) => (.returned v, ⟨slot, false⟩)
    | (none, slot) => (.blocked, ⟨slot, true⟩)

theorem Signal.waitLoop_returned_ne_zero (raises : List Int) (slot v : Int)
    (slot2 : Int) (h : Signal.waitLoop raises slot = (some v, slot2)) :
    v ≠ 0 ∧ slot2 = 0 := by
  induction raises generalizing slot with
  | nil =>
    by_cases hs : slot = 0
    · simp [Signal.waitLoop, hs] at h
    · simp [Signal.waitLoop, hs] at h
      exact ⟨by rw [← h.1]; exact hs, h.2.symm⟩
  | cons r rest ih =>
    by_cases hs : slot = 0
    · rw [Signal.waitLoop] at h
      simp [hs] at h
      exact ih _ h
    · rw [Signal.waitLoop] at h
      simp [hs] at h
      exact ⟨by rw [← h.1]; exact hs, h.2.symm⟩

/-- Claim C6: if the in-use flag is set, `Wait` immediately throws the
logic error and changes nothing; otherwise, whenever `Wait` returns
normally, the returned value is the non-zero value read-and-cleared from
the pending slot (the slot is left 0), the in-use flag is cleared, and a
subsequent `Wait` on the resulting state never throws the logic error. -/
theorem C6_wait_reentry_and_release (raises : List Int) (s : SignalState) :
    (s.g_bWaitInUse = true → Signal.Wait raises s = (.logicError, s)) ∧
    (s.g_bWaitInUse = false → ∀ (v : Int) (s2 : SignalState),
        Signal.Wait raises s = (.returned v, s2) →
        v ≠ 0 ∧ s2.g_snSignal = 0 ∧ s2.g_bWaitInUse = false ∧
        ∀ raises2 : List Int, (Signal.Wait raises2 s2).1 ≠ WaitOutcome.logicError) := by
  constructor
  · intro h
    simp [Signal.Wait, h]
  · intro h v s2 hret
    rw [Signal.Wait] at hret
    simp [h] at hret
    rcases hl : Signal.waitLoop raises s.g_snSignal with ⟨o, slot2⟩
    cases o with
    | none => simp [hl] at hret
    | some w =>
      rw [hl] at hret
      simp at hret
      obtain ⟨hv, hs2⟩ := hret
      obtain ⟨hw0, hslot⟩ := Signal.waitLoop_returned_ne_zero raises s.g_snSignal w slot2 hl
      subst hv
      constructor
      · exact hw0
      refine ⟨?_, ?_, ?_⟩
      · rw [← hs2, hslot]
      · rw [← hs2]
      · intro raises2
        rw [Signal.Wait]
        have : s2.g_bWaitInUse = false := by rw [← hs2]
        rw [this]
        simp only [Bool.false_eq_true, if_false]
        rcases Signal.waitLoop raises2 s2.g_snSignal with ⟨o2, sl2⟩
        cases o2 <;> simp

theorem C6_wait_reentry_and_release_witness :
    Signal.Wait [] ⟨0, true⟩ = (.logicError, ⟨0, true⟩) ∧
    ((5 : Int) ≠ 0 ∧ (⟨0, false⟩ : SignalState).g_snSignal = 0 ∧
      (⟨0, false⟩ : SignalState).g_bWaitInUse = false ∧
      ∀ raises2 : List Int,
        (Signal.Wait raises2 ⟨0, false⟩).1 ≠ WaitOutcome.logicError) :=
  ⟨(C6_wait_reentry_and_release [] ⟨0, true⟩).1 rfl,
   (C6_wait_reentry_and_release [] ⟨5, false⟩).2 rfl 5 ⟨0, false⟩ rfl⟩

/-- Claim C7 counterexample: the claim says the pending slot is
overwritten with the passed signal number regardless of the value
passed. Two concrete refutations: at `Raise 0` on a state whose slot
holds 5 the slot would then hold 0, but the code returns early on 0 and
the slot still holds 5; and at `Raise (2 ^ 32)` the slot would then
hold 2 ^ 32, but the `static_cast<int>` narrowing stores the wrapped
value 0 instead. -/
theorem C7_raise_counterexample :
    (Signal.Raise 0 ⟨5, false⟩).g_snSignal ≠ 0 ∧
    (Signal.Raise (2 ^ 32) ⟨5, false⟩).g_snSignal ≠ 2 ^ 32 := by
  constructor
  · simp [Signal.Raise]
  · decide

/-- Claim C7 (amended): for every non-zero signal number, `Raise`
unconditionally overwrites the pending slot with the wrapped 32-bit
conversion of that number (last write wins) and leaves the in-use flag
alone — so for every non-zero number within the range of a 32-bit
signed int the slot holds exactly the number passed; `Raise 0` is a
no-op leaving the whole state unchanged. -/
theorem C7_raise_last_write_wins (snSig : Int) (s : SignalState) :
    (snSig ≠ 0 → Signal.Raise snSig s = ⟨toInt32 snSig, s.g_bWaitInUse⟩) ∧
    (snSig ≠ 0 → -2 ^ 31 ≤ snSig → snSig < 2 ^ 31 →
        Signal.Raise snSig s = ⟨snSig, s.g_bWaitInUse⟩) ∧
    (snSig = 0 → Signal.Raise snSig s = s) := by
  refine ⟨?_, ?_, ?_⟩
  · intro h; simp [Signal.Raise, h]
  · intro h h1 h2
    have hw : toInt32 snSig = snSig := by
      unfold toInt32
      rw [Int.emod_eq_of_lt (by linarith) (by linarith)]
      ring
    simp [Signal.Raise, h, hw]
  · intro h; simp [Signal.Raise, h]

theorem C7_raise_last_write_wins_witness :
    Signal.Raise (2 ^ 32) ⟨5, true⟩ = ⟨toInt32 (2 ^ 32), true⟩ ∧
    Signal.Raise 7 ⟨5, true⟩ = ⟨7, true⟩ ∧
    Signal.Raise 0 ⟨5, true⟩ = ⟨5, true⟩ :=
  ⟨(C7_raise_last_write_wins (2 ^ 32) ⟨5, true⟩).1 (by decide),
   (C7_raise_last_write_wins 7 ⟨5, true⟩).2.1 (by decide) (by decide) (by decide),
   (C7_raise_last_write_wins 0 ⟨5, true⟩).2.2 rfl⟩

/-! ## ProcessBase handler registries and dispatch (ProcessBase.h)

The three registries are `std::unordered_map`s; each registration site
calls `emplace`, which inserts only when the key is absent and leaves
the map unchanged when the key is present. The maps are modelled as
association lists with unique keys; handlers are identified by tags. -/

/-- First-match lookup in an association list (`unordered_map::find`). -/
def lookupKV {K V : Type} [DecidableEq K] (k : K) : List (K × V) → Option V
  | [] => none
  | (k2, v) :: rest => if k = k2 then some v else lookupKV k rest

/-- `unordered_map::emplace`: insert only if the key is absent; when the
key is already present the map is unchanged (no overwrite). -/
def emplace {K V : Type} [DecidableEq K] (k : K) (v : V) (m : List (K × V)) :
    List (K × V) :=
  if (lookupKV k m).isSome then m else (k, v) :: m

/-- `RegisterMessageHandler` (ProcessBase.h lines 128-139): under the
message-handler mutex, `m_mapMessageHandler.emplace(strEventName,
fnHandler)`; then raises the internal wake signal (not modelled here). -/
def ProcessBase.RegisterMessageHandler (strEventName : String) (fnHandler : Nat)
    (m : List (String × Nat)) : List (String × Nat) :=
  emplace strEventName fnHandler m

/-- `RegisterTimer` (ProcessBase.h lines 148-153): under the
timer-handler mutex, `m_mapTimerHandler.emplace(unTimerId, fnHandler)`. -/
def ProcessBase.RegisterTimer (unTimerId : Nat) (fnHandler : Nat)
    (m : List (Nat × Nat)) : List (Nat × Nat) :=
  emplace unTimerId fnHandler m

/-- The reserved internal wake signal. On the target platform (POSIX,
`<csignal>`) `SIGUSR2` is signal number 12; the fallback constant 10002
in Signal.h only applies where `<csignal>` does not define it. -/
def SIGUSR2 : Int := 12

/-- `RegisterSignalHandler` (ProcessBase.h lines 164-177): if the signal
number is `SIGUSR2`, throw `std::logic_error` before touching the map;
else `emplace` under the signal-handler mutex and raise the wake signal.
The first component is the thrown logic-error message, if any; the
second is the registry after the call. -/
def ProcessBase.RegisterSignalHandler (snSignal : Int) (fnHandler : Nat)
    (m : List (Int × Nat)) : Option String × List (Int × Nat) :=
  if snSignal = SIGUSR2 then
    (some "Cannot register SIGUSR2 handler: it is reserved for internal use", m)
  else
    (none, emplace snSignal fnHandler m)

/-- What `vDispatchMessage` does after the lookup: call the found
handler, or dereference `itr->second` with `itr` equal to `end()` and
call through it (undefined behavior). -/
inductive MsgAction where
  | callHandler : Nat → MsgAction
  | callEndIterator : MsgAction
deriving Repr, DecidableEq

/-- Observable outcome of `vDispatchMessage`: whether the
missing-handler alert was logged, and which invocation was attempted. -/
structure MsgDispatchResult where
  alerted : Bool
  action : MsgAction
deriving Repr, DecidableEq

/-- `vDispatchMessage` (ProcessBase.h lines 233-251): find the handler
by event name; if absent, log the alert — and then fall through: the
code unconditionally takes `itr->second` and invokes it, so on a failed
lookup it dereferences the end iterator. -/
def ProcessBase.vDispatchMessage (m : List (String × Nat)) (strEventName : String) :
    MsgDispatchResult :=
  match lookupKV strEventName m with
  | none => ⟨true, .callEndIterator⟩
  | some h => ⟨false, .callHandler h⟩

/-- Claim C1 as stated is false on the code: the registries use
`emplace`, which keeps the first handler, while the claim (and the
doc comments of the registration functions) say the second registration
replaces the first. After registering handlers 1 then 2 under the same
message name, dispatch invokes handler 1, and the same holds for the
timer and signal registries; so the first handler is still the one a
subsequent dispatch invokes. -/
theorem C1_emplace_keeps_first_handler :
    ProcessBase.vDispatchMessage
        (ProcessBase.RegisterMessageHandler "ping" 2
          (ProcessBase.RegisterMessageHandler "ping" 1 [])) "ping"
      = ⟨false, .callHandler 1⟩ ∧
    lookupKV 7 (ProcessBase.RegisterTimer 7 2 (ProcessBase.RegisterTimer 7 1 []))
      = some 1 ∧
    lookupKV 15
        (ProcessBase.RegisterSignalHandler 15 2
          (ProcessBase.RegisterSignalHandler 15 1 []).2).2
      = some 1 ∧
    (1 : Nat) ≠ 2 := by
  refine ⟨?_, ?_, ?_, by decide⟩ <;> rfl

/-- Claim C2 evaluated at the failing input: dispatching a message named
"ping" with no handler registered logs the alert but does not stop — the
dispatch proceeds to dereference the end iterator and call through it
instead of returning. -/
theorem C2_missing_message_handler_invoked :
    ProcessBase.vDispatchMessage [] "ping" = ⟨true, .callEndIterator⟩ := rfl

/-- Claim C8: registering a handler for the reserved wake signal
`SIGUSR2` always throws the logic error (never silently ignored) and
leaves the signal-handler registry exactly as it was. -/
theorem C8_sigusr2_registration_rejected (fnHandler : Nat) (m : List (Int × Nat)) :
    ProcessBase.RegisterSignalHandler SIGUSR2 fnHandler m
      = (some "Cannot register SIGUSR2 handler: it is reserved for internal use", m) := by
  simp [ProcessBase.RegisterSignalHandler]

/-! ## IniFile (IniFile.h)

Strings are modelled as `List Char`; the nested `unordered_map`s as
nested association lists. `LoadFromFile` is modelled from the point
where the file contents are in hand, as a fold of `processLine` over the
lines `std::getline` produces. -/

/-- The whitespace set of `IniFile::Trim`. -/
def iniSpaceChars : List Char := [' ', '\t', '\r', '\n']

/-- `Trim` (IniFile.h lines 136-140): erase the leading run of
whitespace, then erase everything after the last non-whitespace
character (an all-whitespace string becomes empty). -/
def IniFile.trim (s : List Char) : List Char :=
  ((s.dropWhile (fun c => iniSpaceChars.contains c)).reverse.dropWhile
      (fun c => iniSpaceChars.contains c)).reverse

/-- `line.find('=')` followed by the two `substr` calls: split at the
first `'='`, returning the part before it and the part after it; `none`
when the line has no `'='`. -/
def splitAtEq : List Char → Option (List Char × List Char)
  | [] => none
  | c :: rest =>
    if c = '=' then some ([], rest)
    else
      match splitAtEq rest with
      | none => none
      | some (k, v) => some (c :: k, v)

/-- `unordered_map::operator[]` followed by assignment: overwrite the
value when the key exists, append the pair otherwise. -/
def upsert {K V : Type} [DecidableEq K] (k : K) (v : V) : List (K × V) → List (K × V)
  | [] => [(k, v)]
  | (k2, v2) :: rest => if k = k2 then (k, v) :: rest else (k2, v2) :: upsert k v rest

/-- The nested map type of `IniFile::Data`. -/
abbrev IniData : Type := List (List Char × List (List Char × List Char))

/-- `m_mapData[sec][key] = val`: `operator[]` default-constructs the
missing section, then the inner assignment overwrites or inserts. -/
def iniSet (sec key val : List Char) (d : IniData) : IniData :=
  upsert sec (upsert key val ((lookupKV sec d).getD [])) d

/-- The loop state of `LoadFromFile`: the map built so far and
`currentSection`. -/
structure IniLoadState where
  mapData : IniData
  currentSection : List Char
deriving Repr, DecidableEq

/-- One iteration of the `LoadFromFile` loop (IniFile.h lines 42-59):
trim the line; skip it when empty or starting with `;` or `#`; when it
is bracketed on both ends, set `currentSection` to the trimmed inside;
otherwise split at the first `=` (skipping the line when there is none)
and store the trimmed value under (`currentSection`, trimmed key). -/
def IniFile.processLine (st : IniLoadState) (rawLine : List Char) : IniLoadState :=
  let line := IniFile.trim rawLine
  if line = [] ∨ line.head? = some ';' ∨ line.head? = some '#' then st
  else if line.head? = some '[' ∧ line.getLast? = some ']' then
    ⟨st.mapData, IniFile.trim ((line.drop 1).dropLast)⟩
  else
    match splitAtEq line with
    | none => st
    | some (k, v) =>
      ⟨iniSet st.currentSection (IniFile.trim k) (IniFile.trim v) st.mapData,
       st.currentSection⟩

/-- `LoadFromFile` after the stream is open: fold the loop body over the
lines, starting from an empty map and the empty `currentSection`. -/
def IniFile.LoadFromLines (lines : List (List Char)) : IniData :=
  (lines.foldl IniFile.processLine ⟨[], []⟩).mapData

/-- `Get` (IniFile.h lines 94-101): find the section, then the key;
return the stored value, or the supplied default when either is
missing. -/
def IniFile.Get (d : IniData) (strSection strKey strDefaultValue : List Char) :
    List Char :=
  match lookupKV strSection d with
  | none => strDefaultValue
  | some sec =>
    match lookupKV strKey sec with
    | none => strDefaultValue
    | some v => v

theorem lookupKV_upsert_self {K V : Type} [DecidableEq K] (k : K) (v : V)
    (m : List (K × V)) : lookupKV k (upsert k v m) = some v := by
  induction m with
  | nil => simp [upsert, lookupKV]
  | cons p rest ih =>
    rcases p with ⟨k2, v2⟩
    by_cases h : k = k2
    · simp [upsert, lookupKV, h]
    · simp [upsert, lookupKV, h, ih]

theorem splitAtEq_ne_nil {k v : List Char} {line : List Char}
    (h : splitAtEq line = some (k, v)) : line ≠ [] := by
  intro he
  rw [he] at h
  simp [splitAtEq] at h

/-- Claim C9: behavior of the configuration reader, one clause per line
form plus the `Get` contract. A line that trims to empty, or whose first
character after trimming is `;` or `#`, is skipped. A line that trims to
`[` ... `]` replaces the current section with the trimmed inside. Any
other line with an `=` stores the trimmed value under the current
section and the trimmed key (a store is then retrievable by `Get`). `Get`
returns the stored value when the section and key are present, and the
supplied default when either is missing. -/
theorem C9_ini_parse_and_get :
    (∀ (st : IniLoadState) (raw : List Char),
        IniFile.trim raw = [] → IniFile.processLine st raw = st) ∧
    (∀ (st : IniLoadState) (raw : List Char) (c : Char) (rest : List Char),
        IniFile.trim raw = c :: rest → (c = ';' ∨ c = '#') →
        IniFile.processLine st raw = st) ∧
    (∀ (st : IniLoadState) (raw inner : List Char),
        IniFile.trim raw = '[' :: (inner ++ [']']) →
        IniFile.processLine st raw = ⟨st.mapData, IniFile.trim inner⟩) ∧
    (∀ (st : IniLoadState) (raw k v : List Char),
        (IniFile.trim raw).head? ≠ some ';' →
        (IniFile.trim raw).head? ≠ some '#' →
        ¬((IniFile.trim raw).head? = some '[' ∧ (IniFile.trim raw).getLast? = some ']') →
        splitAtEq (IniFile.trim raw) = some (k, v) →
        IniFile.processLine st raw
          = ⟨iniSet st.currentSection (IniFile.trim k) (IniFile.trim v) st.mapData,
             st.currentSection⟩) ∧
    (∀ (d : IniData) (sec key v dflt : List Char),
        IniFile.Get (iniSet sec key v d) sec key dflt = v) ∧
    (∀ (d : IniData) (sec key dflt : List Char),
        lookupKV sec d = none → IniFile.Get d sec key dflt = dflt) ∧
    (∀ (d : IniData) (sec key dflt : List Char) (secMap : List (List Char × List Char)),
        lookupKV sec d = some secMap → lookupKV key secMap = none →
        IniFile.Get d sec key dflt = dflt) ∧
    (∀ (d : IniData) (sec key dflt : List Char) (secMap : List (List Char × List Char))
        (v : List Char),
        lookupKV sec d = some secMap → lookupKV key secMap = some v →
        IniFile.Get d sec key dflt = v) := by
  refine ⟨?_, ?_, ?_, ?_, ?_, ?_, ?_, ?_⟩
  · intro st raw h
    simp [IniFile.processLine, h]
  · intro st raw c rest h hc
    rcases hc with hc | hc <;> subst hc <;> simp [IniFile.processLine, h]
  · intro st raw inner h
    have hlast : ('[' :: (inner ++ [']'])).getLast? = some ']' := by
      rw [show '[' :: (inner ++ [']']) = ('[' :: inner) ++ [']'] by simp,
        List.getLast?_concat]
    simp [IniFile.processLine, h, hlast]
  · intro st raw k v h1 h2 h3 hsp
    have hne : IniFile.trim raw ≠ [] := splitAtEq_ne_nil hsp
    rw [IniFile.processLine]
    simp only [hsp]
    rw [if_neg, if_neg]
    · intro hb
      exact h3 hb
    · intro hor
      rcases hor with h | h | h
      · exact hne h
      · exact h1 h
      · exact h2 h
  · intro d sec key v dflt
    simp [IniFile.Get, iniSet, lookupKV_upsert_self]
  · intro d sec key dflt h
    simp [IniFile.Get, h]
  · intro d sec key dflt secMap h1 h2
    simp [IniFile.Get, h1, h2]
  · intro d sec key dflt secMap v h1 h2
    simp [IniFile.Get, h1, h2]

theorem C9_ini_parse_and_get_witness :
    IniFile.processLine ⟨[], []⟩ [' ', '\t'] = ⟨[], []⟩ ∧
    IniFile.processLine ⟨[], []⟩ [' ', '#', 'x'] = ⟨[], []⟩ ∧
    IniFile.processLine ⟨[], []⟩ [' ', '[', ' ', 'a', ']']
      = ⟨[], IniFile.trim [' ', 'a']⟩ ∧
    IniFile.processLine ⟨[], ['s']⟩ ['k', '=', ' ', 'v']
      = ⟨iniSet ['s'] (IniFile.trim ['k']) (IniFile.trim [' ', 'v']) [], ['s']⟩ ∧
    IniFile.Get (iniSet ['s'] ['k'] ['v'] []) ['s'] ['k'] ['d'] = ['v'] ∧
    IniFile.Get [] ['s'] ['k'] ['d'] = ['d'] ∧
    IniFile.Get [(['s'], [])] ['s'] ['k'] ['d'] = ['d'] ∧
    IniFile.Get [(['s'], [(['k'], ['v'])])] ['s'] ['k'] ['d'] = ['v'] :=
  ⟨C9_ini_parse_and_get.1 ⟨[], []⟩ [' ', '\t'] (by decide),
   C9_ini_parse_and_get.2.1 ⟨[], []⟩ [' ', '#', 'x'] '#' ['x'] (by decide) (Or.inr rfl),
   C9_ini_parse_and_get.2.2.1 ⟨[], []⟩ [' ', '[', ' ', 'a', ']'] [' ', 'a'] (by decide),
   C9_ini_parse_and_get.2.2.2.1 ⟨[], ['s']⟩ ['k', '=', ' ', 'v'] ['k'] [' ', 'v']
     (by decide) (by decide) (by decide) (by decide),
   C9_ini_parse_and_get.2.2.2.2.1 [] ['s'] ['k'] ['v'] ['d'],
   C9_ini_parse_and_get.2.2.2.2.2.1 [] ['s'] ['k'] ['d'] rfl,
   C9_ini_parse_and_get.2.2.2.2.2.2.1 [(['s'], [])] ['s'] ['k'] ['d'] [] rfl rfl,
   C9_ini_parse_and_get.2.2.2.2.2.2.2 [(['s'], [(['k'], ['v'])])] ['s'] ['k'] ['d']
     [(['k'], ['v'])] ['v'] rfl rfl⟩

end LCC
